import Mathlib

/-!
# mc-discord-logger: a Lean model of `main.go`

The program tails a Minecraft server log and turns recognised lines into Discord webhook
posts.  This file embeds the source function by function:

* the fragment of Go's `regexp` package the seven patterns use (anchor, literal runes,
  greedy `.*`, capture groups around `.*`), with the leftmost-first backtracking semantics
  the package documents;
* the pattern constants, the `parse…`/`isChatMessage` helpers and the body of the
  `processMessageQueue` loop;
* `postWebhook` over a scripted sequence of `http.Post` results;
* the tailer loop of `main` over a buffered reader, with `isTruncated`;
* the goroutines and the channel between tailer and dispatcher as an interleaving
  transition system.

Go strings are modelled by `String`; the regexp engine works on the list of runes.
-/

namespace McDiscordLogger

/-! ## The regexp fragment -/

/-- Instructions of a compiled pattern: a literal rune, or a greedy `.*` (with or without a
capture group around it).  `.` is Go's default "any character except line feed". -/
inductive Inst where
  | rune (c : Char)
  | star (capture : Bool)
  deriving DecidableEq, Repr

/-- A compiled pattern: whether it starts with `^`, and the instruction sequence. -/
structure Regexp where
  anchored : Bool
  prog : List Inst
  deriving DecidableEq, Repr

/-- Characters with a special meaning in the pattern syntax. -/
def isMeta (c : Char) : Bool :=
  c = '\\' || c = '.' || c = '+' || c = '*' || c = '?' || c = '(' || c = ')' || c = '|' ||
  c = '[' || c = ']' || c = '{' || c = '}' || c = '^' || c = '$'

/-- A backslash followed by an ASCII non-word character denotes that character. -/
def isEscapable (c : Char) : Bool :=
  decide (c.toNat < 128) && !c.isAlphanum

/-- Parser for the pattern fragment; `none` outside the fragment. -/
def parseProg : List Char → Option (List Inst)
  | [] => some []
  | '(' :: '.' :: '*' :: ')' :: r => (parseProg r).map (Inst.star true :: ·)
  | '.' :: '*' :: r => (parseProg r).map (Inst.star false :: ·)
  | '\\' :: c :: r => if isEscapable c then (parseProg r).map (Inst.rune c :: ·) else none
  | c :: r => if isMeta c then none else (parseProg r).map (Inst.rune c :: ·)

/-- `regexp.Compile`, on the fragment. -/
def Compile (expr : String) : Option Regexp :=
  match expr.data with
  | '^' :: r => (parseProg r).map (Regexp.mk true)
  | r => (parseProg r).map (Regexp.mk false)

/-- `regexp.MustCompile`: it panics when the expression does not compile, so the model asks
for the evidence that it does. -/
def MustCompile (expr : String) (h : (Compile expr).isSome = true) : Regexp :=
  (Compile expr).get h

/-- Greedy `.*` followed by the continuation `k`: the longest run of non-line-feed runes
after which `k` succeeds.  `acc` is the text consumed by this star so far. -/
def starGreedy {α : Type} (k : List Char → List Char → Option α) :
    List Char → List Char → Option α
  | acc, [] => k acc []
  | acc, c :: t =>
    if c = '\n' then k acc (c :: t)
    else match starGreedy k (acc ++ [c]) t with
      | some r => some r
      | none => k acc (c :: t)

/-- Backtracking execution of a program at the start of `s`: the captured groups in order
and the text left after the match. -/
def exec : List Inst → List Char → Option (List (List Char) × List Char)
  | [], s => some ([], s)
  | Inst.rune c :: p, s =>
    match s with
    | d :: t => if d = c then exec p t else none
    | [] => none
  | Inst.star false :: p, s => starGreedy (fun _ rest => exec p rest) [] s
  | Inst.star true :: p, s =>
    starGreedy (fun cap rest => (exec p rest).map (fun r => (cap :: r.1, r.2))) [] s

/-- Submatches of a match of `p` starting at the beginning of `s`: the whole match first,
then the groups. -/
def submatchesAt (p : List Inst) (s : List Char) : Option (List String) :=
  (exec p s).map (fun r =>
    String.mk (s.take (s.length - r.2.length)) :: r.1.map String.mk)

/-- Leftmost match of an unanchored program: the first start position with a match. -/
def searchFrom (p : List Inst) : List Char → Option (List String)
  | [] => submatchesAt p []
  | c :: t =>
    match submatchesAt p (c :: t) with
    | some r => some r
    | none => searchFrom p t

/-- `(*Regexp).FindStringSubmatch`: the empty list stands for the `nil` result. -/
def Regexp.FindStringSubmatch (re : Regexp) (s : String) : List String :=
  ((if re.anchored then submatchesAt re.prog s.data else searchFrom re.prog s.data)).getD []

/-- `(*Regexp).MatchString`. -/
def Regexp.MatchString (re : Regexp) (s : String) : Bool :=
  ((if re.anchored then submatchesAt re.prog s.data else searchFrom re.prog s.data)).isSome

/-! ## Types and constants of `main.go` -/

/-- The embed of a webhook payload. -/
structure Embed where
  Title : String
  Description : String
  Color : String
  deriving DecidableEq, Repr

def ColorYellow : String := "16311836"
def ColorBlue : String := "43519"
def ColorGreen : String := "12118406"

def regexChatMessage : String := "^\\[.*\\]: \\<(.*)\\> (.*)"
def regexJoin : String := "^\\[.*\\]: (.*) joined the game"
def regexLeft : String := "^\\[.*\\]: (.*) left the game"
def regexServerStarting : String := "^\\[.*\\]: Starting minecraft server"
def regexServerStarted : String := "^\\[.*\\]: Done \\(.*\\)! For help, type \"help\""
def regexServerStop : String := "^\\[.*\\]: Stopping server"
def regexAdvancement : String := "^\\[.*\\]: (.*) has made the advancement \\[(.*)\\]"

/-! ## The parsing helpers -/

def parseJoinMessage (message : String) : String :=
  let reg := MustCompile regexJoin (by decide)
  let found := reg.FindStringSubmatch message
  if found.length > 1 then found.getD 1 "" else ""

def parseLeftMessage (message : String) : String :=
  let reg := MustCompile regexLeft (by decide)
  let found := reg.FindStringSubmatch message
  if found.length > 1 then found.getD 1 "" else ""

def parseAdavancementMessage (message : String) : String × String :=
  let reg := MustCompile regexAdvancement (by decide)
  let found := reg.FindStringSubmatch message
  if found.length > 1 then (found.getD 1 "", found.getD 2 "") else ("", "")

def isChatMessage (msg : String) : Bool :=
  let reg := MustCompile regexChatMessage (by decide)
  reg.MatchString msg

def parseChatMessage (msg : String) : List String :=
  let reg := MustCompile regexChatMessage (by decide)
  let found := reg.FindStringSubmatch msg
  if found.length = 0 then [] else [found.getD 1 "", found.getD 2 ""]

/-! ## The dispatcher -/

/-- The `playerJoin` map of `processMessageQueue`: player name to join time. -/
abbrev PlayerJoin := String → Option Nat

/-- A call `postWebhook(url, content)`. -/
structure PostCall where
  url : String
  content : Embed
  deriving DecidableEq, Repr

/-- One iteration of the loop of `processMessageQueue` on the received `message`, with `now`
the value `time.Now()` would return: the map afterwards and the `postWebhook` calls made. -/
def processMessage (webhookUrl : String) (playerJoin : PlayerJoin) (now : Nat)
    (message : String) : PlayerJoin × List PostCall :=
  if (MustCompile regexServerStarting (by decide)).MatchString message then
    (playerJoin, [⟨webhookUrl, ⟨"Server starting... Please wait", "", ColorBlue⟩⟩])
  else if (MustCompile regexServerStarted (by decide)).MatchString message then
    (playerJoin, [⟨webhookUrl, ⟨"Server started! Ready to join!", "", ColorBlue⟩⟩])
  else if (MustCompile regexServerStop (by decide)).MatchString message then
    (playerJoin, [⟨webhookUrl, ⟨"Server stopping...", "", ColorBlue⟩⟩])
  else if (MustCompile regexJoin (by decide)).MatchString message then
    let playerName := parseJoinMessage message
    (fun k => if k = playerName then some now else playerJoin k,
      [⟨webhookUrl, ⟨playerName ++ " joined the game", "", ColorYellow⟩⟩])
  else if (MustCompile regexLeft (by decide)).MatchString message then
    let playerName := parseLeftMessage message
    (playerJoin, [⟨webhookUrl, ⟨playerName ++ " left the game", "", ColorYellow⟩⟩])
  else if (MustCompile regexAdvancement (by decide)).MatchString message then
    let r := parseAdavancementMessage message
    (playerJoin, [⟨webhookUrl, ⟨r.1 ++ " has made the advancement", r.2, ColorGreen⟩⟩])
  else
    (playerJoin, [])

/-- The loop of `processMessageQueue` over the messages received so far, each paired with
the clock value at its processing; the map starts empty. -/
def processMessageQueue (webhookUrl : String) (received : List (String × Nat)) :
    PlayerJoin × List PostCall :=
  received.foldl
    (fun st m =>
      let r := processMessage webhookUrl st.1 m.2 m.1
      (r.1, st.2 ++ r.2))
    (fun _ => none, [])

/-! ## The rule table of the specification (for comparison with the dispatcher) -/

/-- The six notification rules, as the specification lists them. -/
inductive Rule where
  | serverStarting
  | serverStarted
  | serverStopping
  | playerJoined
  | playerLeft
  | advancementEarned
  deriving DecidableEq, Repr

/-- Evaluation order of the rules. -/
def ruleOrder : List Rule :=
  [Rule.serverStarting, Rule.serverStarted, Rule.serverStopping, Rule.playerJoined,
    Rule.playerLeft, Rule.advancementEarned]

/-- Whether a line matches the pattern of a rule. -/
def Rule.matchesLine : Rule → String → Bool
  | Rule.serverStarting, l => (MustCompile regexServerStarting (by decide)).MatchString l
  | Rule.serverStarted, l => (MustCompile regexServerStarted (by decide)).MatchString l
  | Rule.serverStopping, l => (MustCompile regexServerStop (by decide)).MatchString l
  | Rule.playerJoined, l => (MustCompile regexJoin (by decide)).MatchString l
  | Rule.playerLeft, l => (MustCompile regexLeft (by decide)).MatchString l
  | Rule.advancementEarned, l => (MustCompile regexAdvancement (by decide)).MatchString l

/-- The notification a rule produces for a line. -/
def Rule.notification : Rule → String → Embed
  | Rule.serverStarting, _ => ⟨"Server starting... Please wait", "", ColorBlue⟩
  | Rule.serverStarted, _ => ⟨"Server started! Ready to join!", "", ColorBlue⟩
  | Rule.serverStopping, _ => ⟨"Server stopping...", "", ColorBlue⟩
  | Rule.playerJoined, l => ⟨parseJoinMessage l ++ " joined the game", "", ColorYellow⟩
  | Rule.playerLeft, l => ⟨parseLeftMessage l ++ " left the game", "", ColorYellow⟩
  | Rule.advancementEarned, l =>
    ⟨(parseAdavancementMessage l).1 ++ " has made the advancement",
      (parseAdavancementMessage l).2, ColorGreen⟩

/-- First rule, in evaluation order, whose pattern the line matches. -/
def firstRule (line : String) : Option Rule :=
  ruleOrder.find? (fun r => r.matchesLine line)

/-- The text between the name and the label of an advancement line. -/
def advWord : List Char := " has made the advancement [".data

/-! ## Webhook delivery -/

/-- The JSON payload: `{"content": "", "embeds": [...]}`. -/
structure WebhookContent where
  Content : String
  Embeds : List Embed
  deriving DecidableEq, Repr

/-- A floating-point value as `strconv.ParseFloat` returns it: a finite value
`mant * 2 ^ exp`, an infinity or a NaN. -/
inductive FloatVal where
  | finite (mant : Int) (exp : Int)
  | inf
  | nan
  deriving DecidableEq, Repr

/-- The fields of an HTTP response `postWebhook` looks at.  `rateLimitReset` is what
`resp.Header.Get("X-RateLimit-Reset")` returns (the empty string when the header is
absent); `parsed` is what `strconv.ParseFloat` of that text at 32 bits returns, `none`
standing for a non-nil error (the library itself is not modelled). -/
structure Response where
  StatusCode : Int
  rateLimitReset : String
  parsed : Option FloatVal
  body : String
  bodyErr : Bool
  deriving DecidableEq, Repr

/-- The pair `(resp, err)` returned by `http.Post`; `resp = none` is the nil response. -/
structure PostResult where
  resp : Option Response
  err : Bool
  deriving DecidableEq, Repr

/-- What `postWebhook` does to the outside world. -/
inductive Effect where
  | post (url : String) (contentType : String) (body : WebhookContent)
  | print (text : String)
  | sleep (nanos : Int)
  | closeBody
  deriving DecidableEq, Repr

/-- How a call ends: it returns, it panics (which ends the process, nothing recovers), or
the model ran out of steps while it was still retrying. -/
inductive Outcome where
  | returned
  | panicked
  | running
  deriving DecidableEq, Repr

def StatusTooManyRequests : Int := 429

/-- `time.Second` in nanoseconds, the unit of `time.Duration`. -/
def Second : Int := 1000000000

/-- Two's complement wrap-around of a 64-bit signed integer. -/
def wrapInt64 (x : Int) : Int := (x + 2 ^ 63) % 2 ^ 64 - 2 ^ 63

/-- The finite value `mant * 2 ^ exp` truncated toward zero to a whole number. -/
def truncFloat (mant exp : Int) : Int :=
  Int.tdiv (mant * 2 ^ exp.toNat) (2 ^ (-exp).toNat)

/-- The conversion `int(f)` of a float to a 64-bit `int`: truncation toward zero when the
result fits, and the platform's value `implInt` when it does not (or for infinities and
NaN). -/
def floatToInt (implInt : Int) : FloatVal → Int
  | FloatVal.finite mant exp =>
    if -(2 ^ 63) ≤ truncFloat mant exp ∧ truncFloat mant exp < 2 ^ 63 then truncFloat mant exp
    else implInt
  | FloatVal.inf => implInt
  | FloatVal.nan => implInt

/-- The value of `waitTime` in `postWebhook` when the sleep is reached. -/
def waitTime (implInt : Int) (resp : Response) : Int :=
  if resp.rateLimitReset ≠ "" then
    match resp.parsed with
    | some rateLimit => floatToInt implInt rateLimit
    | none => 1
  else 1

/-- The function `postWebhook`: `net i` is the result of the `i`-th `http.Post`, `deferred`
counts the `resp.Body.Close()` calls deferred so far, `fuel` bounds the number of loop
iterations modelled.  A nil response makes `defer resp.Body.Close()` dereference nil. -/
def postWebhook (url : String) (content : Embed) (net : Nat → PostResult) (implInt : Int) :
    Nat → Nat → Nat → List Effect × Outcome
  | 0, _, _ => ([], Outcome.running)
  | fuel + 1, attempt, deferred =>
    let r := net attempt
    let sent := Effect.post url "application/json" ⟨"", [content]⟩ ::
      (if r.err then [Effect.print "Error can't post to webhook"] else [])
    match r.resp with
    | none => (sent ++ List.replicate deferred Effect.closeBody, Outcome.panicked)
    | some resp =>
      if resp.StatusCode = StatusTooManyRequests then
        let rest := postWebhook url content net implInt fuel (attempt + 1) (deferred + 1)
        (sent ++ Effect.sleep (wrapInt64 (waitTime implInt resp * Second)) :: rest.1, rest.2)
      else
        (sent ++ (if resp.bodyErr then [Effect.print "Can't read response body\n"] else []) ++
          Effect.print (resp.body ++ "\n") :: List.replicate (deferred + 1) Effect.closeBody,
          Outcome.returned)

/-- The HTTP posts among some effects. -/
def postsOf : List Effect → List Effect
  | [] => []
  | Effect.post u c b :: es => Effect.post u c b :: postsOf es
  | _ :: es => postsOf es

/-- The sleeps among some effects, in nanoseconds. -/
def sleepsOf : List Effect → List Int
  | [] => []
  | Effect.sleep d :: es => d :: sleepsOf es
  | _ :: es => sleepsOf es

/-- The nanoseconds slept after the `i`-th response. -/
def sleepAfter (implInt : Int) (r : PostResult) : Int :=
  match r.resp with
  | some resp => wrapInt64 (waitTime implInt resp * Second)
  | none => 0

/-! ## The tailer -/

/-- The open log file as the tailer holds it: the offset of the file descriptor and the
bytes the `bufio.Reader` has read from the file but not yet handed out. -/
structure Reader where
  offset : Nat
  buf : List Char
  deriving DecidableEq, Repr

/-- Size of the buffer of `bufio.NewReader`. -/
def defaultBufSize : Nat := 4096

/-- Errors of a read. -/
inductive ReadErr where
  | eof
  | other
  deriving DecidableEq, Repr

/-- Text up to and including the first line feed, and the text after it. -/
def splitLine : List Char → Option (List Char × List Char)
  | [] => none
  | c :: t =>
    if c = '\n' then some ([c], t)
    else (splitLine t).map (fun r => (c :: r.1, r.2))

/-- The call `reader.ReadString('\n')` on a file whose content is `content` during the
call.  A line already in the buffer is handed out without touching the file.  Otherwise
the reader fills its buffer from the file in chunks that end at multiples of the buffer
size (counted from the start of the buffered text) or at the end of the file, until a line
feed has been read; when the file ends first, all text read is returned with `io.EOF` and
the buffer is left empty. -/
def ReadString (content : List Char) (rd : Reader) : List Char × Option ReadErr × Reader :=
  match splitLine rd.buf with
  | some (line, rest) => (line, none, ⟨rd.offset, rest⟩)
  | none =>
    let avail := content.drop rd.offset
    let stream := rd.buf ++ avail
    match splitLine stream with
    | none => (stream, some ReadErr.eof, ⟨rd.offset + avail.length, []⟩)
    | some (line, _) =>
      let chunkEnd := min stream.length (defaultBufSize * ((line.length - 1) / defaultBufSize + 1))
      (line, none, ⟨rd.offset + (chunkEnd - rd.buf.length),
        (stream.take chunkEnd).drop line.length⟩)

/-- What the file system presents to one iteration of the tailer loop: the content of the
file when `ReadString` runs, whether that read fails with an error other than `io.EOF`,
the size `Stat` reports in `isTruncated` (after the 500 ms sleep), and whether the two
seeks and the `Stat` fail. -/
structure IterEnv where
  content : List Char
  readErr : Bool
  sizeAtCheck : Nat
  seekCurrentErr : Bool
  statErr : Bool
  seekStartErr : Bool
  deriving DecidableEq, Repr

/-- The function `isTruncated`: `offset` is the position `file.Seek(0, io.SeekCurrent)`
reports. -/
def isTruncated (offset : Nat) (env : IterEnv) : Except Unit Bool :=
  if env.seekCurrentErr then Except.error ()
  else if env.statErr then Except.error ()
  else Except.ok (decide (offset > env.sizeAtCheck))

/-- What `main` does with a line read without error (the end of the loop body): the
goroutines it starts, each sending its line on `logChannels`, and the text printed. -/
def handleLine (line : String) : List String × List String :=
  (if !isChatMessage line then [line] else [], [line ++ "\n"])

/-- Result of one iteration of the tailer loop. -/
structure IterResult where
  reader : Reader
  spawned : List String
  printed : List String
  continues : Bool
  deriving DecidableEq, Repr

/-- One iteration of the `for` loop of `main`. -/
def tailerIter (env : IterEnv) (rd : Reader) : IterResult :=
  if env.readErr then ⟨rd, [], ["Error"], false⟩
  else
    match ReadString env.content rd with
    | (_, some ReadErr.eof, rd1) =>
      match isTruncated rd1.offset env with
      | Except.error _ => ⟨rd1, [], [], false⟩
      | Except.ok truncated =>
        if truncated then
          if env.seekStartErr then ⟨rd1, [], [], false⟩
          else ⟨⟨0, rd1.buf⟩, [], [], true⟩
        else ⟨rd1, [], [], true⟩
    | (_, some ReadErr.other, rd1) => ⟨rd1, [], ["Error"], false⟩
    | (line, none, rd1) =>
      ⟨rd1, (handleLine (String.mk line)).1, (handleLine (String.mk line)).2, true⟩

/-- The tailer loop over the successive states of the file system, from the reader state
`rd`: the lines sent to the dispatcher and the text printed, until the loop breaks or the
script ends. -/
def tailerLoop : List IterEnv → Reader → List String × List String
  | [], _ => ([], [])
  | env :: envs, rd =>
    let r := tailerIter env rd
    if r.continues then
      let rest := tailerLoop envs r.reader
      (r.spawned ++ rest.1, r.printed ++ rest.2)
    else (r.spawned, r.printed)

/-- The reader as `main` sets it up: the descriptor sought to the size of the file. -/
def startReader (fileSize : Nat) : Reader := ⟨fileSize, []⟩

/-- An environment in which no call fails and the file does not change during the
iteration. -/
def quietEnv (content : List Char) : IterEnv :=
  ⟨content, false, content.length, false, false, false⟩

/-- The newline-terminated records of a text, in order; `cur` is the beginning of the
record being read.  An unterminated tail is not a record. -/
def recordsFrom : List Char → List Char → List String
  | _, [] => []
  | cur, c :: t =>
    if c = '\n' then String.mk (cur ++ [c]) :: recordsFrom [] t
    else recordsFrom (cur ++ [c]) t

/-- The newline-terminated records of a text. -/
def records (text : String) : List String := recordsFrom [] text.data

/-! ## Tailer, channel and dispatcher running together -/

/-- State of the running program: the goroutines started by `main` that have not yet
completed their send, the content of the buffered channel `logChannels` (oldest first),
the lines the dispatcher has received, its `playerJoin` map and the `postWebhook` calls it
has made. -/
structure Sys where
  senders : List String
  chan : List String
  received : List String
  playerJoin : PlayerJoin
  posted : List PostCall

/-- Capacity of `logChannels`. -/
def chanCapacity : Nat := 2

/-- Steps of the running program: `main` reads a line and handles it; one of the pending
goroutines completes its send; the dispatcher receives the oldest message and processes
it (with the clock at `now`). -/
inductive Action where
  | read (line : String)
  | send (i : Nat)
  | recv (now : Nat)
  deriving DecidableEq, Repr

/-- One step; `none` when the step is not enabled (no such goroutine, channel full, or
channel empty). -/
def step (webhookUrl : String) (s : Sys) : Action → Option Sys
  | Action.read line => some { s with senders := s.senders ++ (handleLine line).1 }
  | Action.send i =>
    match s.senders[i]? with
    | none => none
    | some line =>
      if s.chan.length < chanCapacity then
        some { s with senders := s.senders.eraseIdx i, chan := s.chan ++ [line] }
      else none
  | Action.recv now =>
    match s.chan with
    | [] => none
    | message :: rest =>
      let r := processMessage webhookUrl s.playerJoin now message
      some { s with chan := rest, received := s.received ++ [message], playerJoin := r.1,
                    posted := s.posted ++ r.2 }

/-- A sequence of steps. -/
def run (webhookUrl : String) : Sys → List Action → Option Sys
  | s, [] => some s
  | s, a :: as =>
    match step webhookUrl s a with
    | none => none
    | some s1 => run webhookUrl s1 as

/-- The program right after start-up. -/
def initSys : Sys := ⟨[], [], [], fun _ => none, []⟩

/-- The lines read by the tailer in a sequence of steps, in order. -/
def linesRead : List Action → List String
  | [] => []
  | Action.read line :: as => line :: linesRead as
  | _ :: as => linesRead as

/-- The `postWebhook` calls the lines give rise to, line by line. -/
def notificationsOf (webhookUrl : String) (lines : List String) : List PostCall :=
  (lines.map (fun l => (processMessage webhookUrl (fun _ => none) 0 l).2)).flatten

/-- The lines among those read that `main` hands to a goroutine. -/
def queuedLines (lines : List String) : List String :=
  lines.filter (fun l => !isChatMessage l)

/-- Whether every send in a sequence of steps is by the goroutine started first. -/
def sendsInStartOrder : List Action → Bool
  | [] => true
  | Action.send i :: as => decide (i = 0) && sendsInStartOrder as
  | _ :: as => sendsInStartOrder as

/-- What the steps of the program preserve. -/
def SysInv (url : String) (s : Sys) (lines : List String) : Prop :=
  s.posted = notificationsOf url s.received ∧
    (s.received ++ s.chan ++ s.senders).Perm (queuedLines lines) ∧
    s.chan.length ≤ chanCapacity

/-! ## The regexp fragment: lemmas -/

/-- A successful star consumed a run without line feed after which its continuation
succeeded. -/
theorem starGreedy_sound {α : Type} (k : List Char → List Char → Option α) :
    ∀ (s acc : List Char) (r : α), starGreedy k acc s = some r →
      ∃ a b, s = a ++ b ∧ (∀ c ∈ a, c ≠ '\n') ∧ k (acc ++ a) b = some r := by
  intro s
  induction s with
  | nil =>
    intro acc r h
    exact ⟨[], [], rfl, by simp, by simpa [starGreedy] using h⟩
  | cons c t ih =>
    intro acc r h
    rw [starGreedy] at h
    split_ifs at h with hc
    · exact ⟨[], c :: t, rfl, by simp, by simpa using h⟩
    · cases hs : starGreedy k (acc ++ [c]) t with
      | some r' =>
        rw [hs] at h
        simp only [Option.some.injEq] at h
        subst h
        obtain ⟨a, b, rfl, ha, hk⟩ := ih _ _ hs
        refine ⟨c :: a, b, rfl, ?_, by simpa using hk⟩
        intro d hd
        rcases List.mem_cons.1 hd with rfl | hd
        · exact hc
        · exact ha d hd
      | none =>
        rw [hs] at h
        exact ⟨[], c :: t, rfl, by simp, by simpa using h⟩

/-- If no non-empty run can be followed by a successful continuation, the star matches
the empty run. -/
theorem starGreedy_empty {α : Type} (k : List Char → List Char → Option α) :
    ∀ (s acc : List Char),
      (∀ a b, s = a ++ b → a ≠ [] → (∀ c ∈ a, c ≠ '\n') → k (acc ++ a) b = none) →
      starGreedy k acc s = k acc s := by
  intro s
  induction s with
  | nil => intro acc _; simp [starGreedy]
  | cons c t ih =>
    intro acc h
    rw [starGreedy]
    split_ifs with hc
    · rfl
    · have h1 : starGreedy k (acc ++ [c]) t = k (acc ++ [c]) t := by
        apply ih
        intro a b hab ha hnl
        have := h (c :: a) b (by simp [hab]) (by simp) (by
          intro d hd
          rcases List.mem_cons.1 hd with rfl | hd
          · exact hc
          · exact hnl d hd)
        simpa using this
      have h2 : k (acc ++ [c]) t = none := h [c] t rfl (by simp) (by simpa using hc)
      rw [h1, h2]

/-- The star takes the longest run after which the continuation succeeds. -/
theorem starGreedy_longest {α : Type} (k : List Char → List Char → Option α) :
    ∀ (a acc b : List Char) (r : α), (∀ c ∈ a, c ≠ '\n') → k (acc ++ a) b = some r →
      (∀ a' b', a ++ b = a' ++ b' → (∀ c ∈ a', c ≠ '\n') → a.length < a'.length →
        k (acc ++ a') b' = none) →
      starGreedy k acc (a ++ b) = some r := by
  intro a
  induction a with
  | nil =>
    intro acc b r _ hk hmax
    rw [List.nil_append, starGreedy_empty, ← hk, List.append_nil]
    intro a' b' hab ha' hnl
    exact hmax a' b' (by simpa using hab) hnl (by
      cases a' with
      | nil => exact absurd rfl ha'
      | cons _ _ => simp)
  | cons c a ih =>
    intro acc b r hnl hk hmax
    have hc : c ≠ '\n' := hnl c (by simp)
    have h1 : starGreedy k (acc ++ [c]) (a ++ b) = some r := by
      apply ih
      · intro d hd; exact hnl d (by simp [hd])
      · simpa using hk
      · intro a' b' hab hnl' hlen
        have := hmax (c :: a') b' (by simp [hab]) (by
          intro d hd
          rcases List.mem_cons.1 hd with rfl | hd
          · exact hc
          · exact hnl' d hd) (by simpa using hlen)
        simpa using this
    rw [List.cons_append, starGreedy, if_neg hc, h1]

/-- If the continuation succeeds after some run, the star succeeds. -/
theorem starGreedy_isSome {α : Type} (k : List Char → List Char → Option α) :
    ∀ (a acc b : List Char), (∀ c ∈ a, c ≠ '\n') → (k (acc ++ a) b).isSome = true →
      (starGreedy k acc (a ++ b)).isSome = true := by
  intro a
  induction a with
  | nil =>
    intro acc b _ hk
    rw [List.append_nil] at hk
    cases b with
    | nil => simpa [starGreedy] using hk
    | cons c t =>
      rw [List.nil_append, starGreedy]
      split_ifs
      · exact hk
      · cases starGreedy k (acc ++ [c]) t with
        | some r => rfl
        | none => exact hk
  | cons c a ih =>
    intro acc b hnl hk
    have hc : c ≠ '\n' := hnl c (by simp)
    have h1 := ih (acc ++ [c]) b (fun d hd => hnl d (by simp [hd])) (by simpa using hk)
    rw [List.cons_append, starGreedy, if_neg hc]
    cases hs : starGreedy k (acc ++ [c]) (a ++ b) with
    | some r => rfl
    | none => rw [hs] at h1; simp at h1

/-- Literal runes of a program match exactly their text. -/
theorem exec_runes_append (w : List Char) (p : List Inst) (t : List Char) :
    exec (w.map Inst.rune ++ p) (w ++ t) = exec p t := by
  induction w with
  | nil => rfl
  | cons c w ih => simp [exec, ih]

/-- A program starting with literal runes matches only text starting with them. -/
theorem exec_runes_some (w : List Char) (p : List Inst) :
    ∀ (s : List Char) (r : List (List Char) × List Char),
      exec (w.map Inst.rune ++ p) s = some r → ∃ t, s = w ++ t ∧ exec p t = some r := by
  induction w with
  | nil => intro s r h; exact ⟨s, rfl, h⟩
  | cons c w ih =>
    intro s r h
    cases s with
    | nil => simp [exec] at h
    | cons d t =>
      simp only [List.map_cons, List.cons_append, exec] at h
      split_ifs at h with hd
      obtain ⟨t', rfl, h'⟩ := ih t r h
      exact ⟨t', by simp [hd], h'⟩



/-- One literal rune. -/
theorem exec_rune_cons (c : Char) (p : List Inst) (t : List Char) :
    exec (Inst.rune c :: p) (c :: t) = exec p t := by
  simp [exec]

/-- Unfolding of an uncaptured star. -/
theorem exec_star_plain (p : List Inst) (s : List Char) :
    exec (Inst.star false :: p) s = starGreedy (fun _ rest => exec p rest) [] s := by
  rw [exec]

/-- Unfolding of a captured star. -/
theorem exec_star_capture (p : List Inst) (s : List Char) :
    exec (Inst.star true :: p) s =
      starGreedy (fun cap rest => (exec p rest).map (fun r => (cap :: r.1, r.2))) [] s := by
  rw [exec]

/-- The compiled chat pattern. -/
theorem chat_compiled (h : (Compile regexChatMessage).isSome = true) :
    MustCompile regexChatMessage h =
      ⟨true, Inst.rune '[' :: Inst.star false ::
        ("]: <".data.map Inst.rune ++ Inst.star true ::
          ("> ".data.map Inst.rune ++ [Inst.star true]))⟩ := rfl

/-- The compiled join pattern. -/
theorem join_compiled (h : (Compile regexJoin).isSome = true) :
    MustCompile regexJoin h =
      ⟨true, Inst.rune '[' :: Inst.star false ::
        ("]: ".data.map Inst.rune ++ Inst.star true ::
          (" joined the game".data.map Inst.rune ++ []))⟩ := rfl

/-- The compiled advancement pattern. -/
theorem advancement_compiled (h : (Compile regexAdvancement).isSome = true) :
    MustCompile regexAdvancement h =
      ⟨true, Inst.rune '[' :: Inst.star false ::
        ("]: ".data.map Inst.rune ++ Inst.star true ::
          (" has made the advancement [".data.map Inst.rune ++ Inst.star true ::
            ("]".data.map Inst.rune ++ [])))⟩ := rfl

/-- The chat program matches every text of the chat shape. -/
theorem exec_chat_isSome (pre player tail : List Char)
    (hpre : ∀ c ∈ pre, c ≠ '\n') (hplayer : ∀ c ∈ player, c ≠ '\n') :
    (exec (Inst.rune '[' :: Inst.star false ::
        ("]: <".data.map Inst.rune ++ Inst.star true ::
          ("> ".data.map Inst.rune ++ [Inst.star true])))
      ('[' :: (pre ++ ("]: <".data ++ (player ++ ("> ".data ++ tail)))))).isSome = true := by
  rw [exec_rune_cons, exec_star_plain]
  apply starGreedy_isSome _ pre [] _ hpre
  rw [exec_runes_append, exec_star_capture]
  apply starGreedy_isSome _ player [] _ hplayer
  rw [Option.isSome_map', exec_runes_append, exec_star_capture]
  have := starGreedy_isSome
    (fun cap rest => Option.map (fun r => (cap :: r.1, r.2)) (exec [] rest)) [] [] tail
    (by simp) (by simp [exec])
  simpa using this

/-- Claim C4: for every line of the chat shape, bracketed beginning, player between angle
brackets, message, where the bracketed text and the player hold no line feed (the message
and what follows it are arbitrary), `isChatMessage` is true, `main` starts no goroutine for
the line, and the step of reading it leaves channel, dispatcher and posts as they were. -/
theorem C4_chat_lines_not_queued (pre player message rest : String)
    (hpre : '\n' ∉ pre.data) (hplayer : '\n' ∉ player.data) :
    isChatMessage ("[" ++ pre ++ "]: <" ++ player ++ "> " ++ message ++ rest) = true ∧
      (handleLine ("[" ++ pre ++ "]: <" ++ player ++ "> " ++ message ++ rest)).1 = [] ∧
      ∀ (url : String) (s : Sys),
        step url s (Action.read ("[" ++ pre ++ "]: <" ++ player ++ "> " ++ message ++ rest))
          = some s := by
  have h1 : isChatMessage ("[" ++ pre ++ "]: <" ++ player ++ "> " ++ message ++ rest) = true := by
    unfold isChatMessage
    simp only [chat_compiled, Regexp.MatchString, if_true, submatchesAt, Option.isSome_map',
      String.data_append]
    have := exec_chat_isSome pre.data player.data (message.data ++ rest.data)
      (fun c hc hcn => hpre (hcn ▸ hc)) (fun c hc hcn => hplayer (hcn ▸ hc))
    simpa using this
  refine ⟨h1, by simp [handleLine, h1], ?_⟩
  intro url s
  simp [step, handleLine, h1]



/-- Witness for claim C4: the chat line of Steve, and chat messages that quote a join and
a server stop. -/
theorem C4_witness :
    isChatMessage "[12:00:00] [Server thread/INFO]: <Steve> hello world" = true ∧
      (handleLine "[12:00:00] [Server thread/INFO]: <Steve> Bob joined the game\n").1 = [] ∧
      (handleLine "[12:00:00] [Server thread/INFO]: <Steve> Stopping server\n").1 = [] :=
  ⟨(C4_chat_lines_not_queued "12:00:00] [Server thread/INFO" "Steve" "hello world" ""
      (by decide) (by decide)).1,
    (C4_chat_lines_not_queued "12:00:00] [Server thread/INFO" "Steve" "Bob joined the game"
      "\n" (by decide) (by decide)).2.1,
    (C4_chat_lines_not_queued "12:00:00] [Server thread/INFO" "Steve" "Stopping server"
      "\n" (by decide) (by decide)).2.1⟩

/-- A match of `[.*` + `w1` + `(.*)` + `w2` decomposes the text accordingly. -/
theorem exec_one_group_sound (w1 w2 : List Char) (s : List Char)
    (r : List (List Char) × List Char)
    (h : exec (Inst.rune '[' :: Inst.star false ::
        (w1.map Inst.rune ++ Inst.star true :: (w2.map Inst.rune ++ []))) s = some r) :
    ∃ pre name, s = '[' :: (pre ++ (w1 ++ (name ++ (w2 ++ r.2)))) ∧ r.1 = [name] ∧
      (∀ c ∈ pre, c ≠ '\n') ∧ (∀ c ∈ name, c ≠ '\n') := by
  obtain ⟨t, rfl, h1⟩ := exec_runes_some ['['] _ s r h
  rw [exec_star_plain] at h1
  obtain ⟨pre, b, rfl, hpre, h2⟩ := starGreedy_sound _ _ _ _ h1
  obtain ⟨t2, rfl, h3⟩ := exec_runes_some w1 _ b r h2
  rw [exec_star_capture] at h3
  obtain ⟨name, b2, rfl, hname, h4⟩ := starGreedy_sound _ _ _ _ h3
  obtain ⟨r', h5, rfl⟩ := Option.map_eq_some'.1 h4
  obtain ⟨t3, rfl, h6⟩ := exec_runes_some w2 _ b2 r' h5
  simp only [exec, Option.some.injEq] at h6
  subst h6
  exact ⟨pre, name, by simp, by simp, hpre, hname⟩

/-- A line matching the join pattern has the join shape around the captured name. -/
theorem join_match_sound (line : String)
    (h : (MustCompile regexJoin (by decide)).MatchString line = true) :
    ∃ pre name post : String,
      line = "[" ++ pre ++ "]: " ++ name ++ " joined the game" ++ post ∧
      parseJoinMessage line = name ∧ '\n' ∉ pre.data ∧ '\n' ∉ name.data := by
  simp only [join_compiled, Regexp.MatchString, if_true, submatchesAt, Option.isSome_map'] at h
  obtain ⟨r, hr⟩ := Option.isSome_iff_exists.1 h
  obtain ⟨pre, name, hs, hcaps, hpre, hname⟩ := exec_one_group_sound _ _ _ r hr
  refine ⟨String.mk pre, String.mk name, String.mk r.2, ?_, ?_, ?_, ?_⟩
  · apply String.ext
    simp only [String.data_append]
    rw [hs]
    simp
  · unfold parseJoinMessage
    simp only [join_compiled, Regexp.FindStringSubmatch, if_true, submatchesAt, hr]
    simp [hcaps]
  · exact fun hc => hpre _ hc rfl
  · exact fun hc => hname _ hc rfl



/-- No proper suffix of the advancement word is a beginning of it. -/
theorem advWord_no_border :
    ∀ i, i < 27 → 0 < i → ¬ (advWord.drop i <+: advWord) := by
  decide

/-- The first `]` of a text is determined when the text before it has none. -/
theorem first_bracket_unique (L T X T' : List Char) (hL : ']' ∉ L) (hT : ']' ∉ T)
    (h : L ++ ']' :: T = X ++ ']' :: T') : X = L := by
  rcases List.append_eq_append_iff.1 h with ⟨m, hX, hm⟩ | ⟨m, hLm, hm⟩
  · cases m with
    | nil => simpa using hX
    | cons c m =>
      simp only [List.cons_append, List.cons.injEq] at hm
      exact absurd (by rw [hm.2]; simp) hT
  · cases m with
    | nil => simpa using hLm.symm
    | cons c m =>
      simp only [List.cons_append, List.cons.injEq] at hm
      exact absurd (by rw [hLm, ← hm.1]; simp) hL

/-- No second occurrence of the advancement word, followed by a `]`, starts after the
first one. -/
theorem no_later_advWord (L T z L' T' : List Char) (hz : z ≠ [])
    (hL : ']' ∉ L) (hT : ']' ∉ T) (hK : ¬ advWord <:+: L)
    (h : advWord ++ (L ++ ']' :: T) = z ++ (advWord ++ (L' ++ ']' :: T'))) : False := by
  rcases List.append_eq_append_iff.1 h with ⟨m, hm1, hm2⟩ | ⟨m, hm1, hm2⟩
  · -- `hm1 : z = advWord ++ m`, `hm2 : L ++ ']' :: T = m ++ (advWord ++ ...)`
    have hX : m ++ advWord ++ L' = L :=
      first_bracket_unique L T (m ++ advWord ++ L') T' hL hT (by simpa using hm2)
    exact hK ⟨m, L', hX⟩
  · -- `hm1 : advWord = z ++ m`, `hm2 : advWord ++ (L' ++ ...) = m ++ (L ++ ...)`
    have hlen : z.length + m.length = 27 := by
      have := congrArg List.length hm1
      simpa [advWord] using this.symm
    have hzpos : 0 < z.length := List.length_pos.2 hz
    have hpre : m <+: advWord :=
      List.prefix_of_prefix_length_le
        (show m <+: advWord ++ (L' ++ ']' :: T') from ⟨L ++ ']' :: T, hm2.symm⟩)
        (List.prefix_append _ _)
        (by rw [show advWord.length = 27 from rfl]; omega)
    have hdrop : advWord.drop z.length = m := by
      rw [hm1, List.drop_left]
    by_cases hfull : z.length = 27
    · have hm : m = [] := List.length_eq_zero.1 (by omega)
      rw [hm, List.nil_append] at hm2
      have hX : advWord ++ L' = L :=
        first_bracket_unique L T (advWord ++ L') T' hL hT (by simpa using hm2.symm)
      exact hK ⟨[], L', by simpa using hX⟩
    · exact advWord_no_border z.length (by omega) hzpos (by rw [hdrop]; exact hpre)

/-- The separator `]: ` cannot start later than at the front when the text after it does
not contain it. -/
theorem sep_not_later (N x Z : List Char) (hx : x ≠ []) (hN : ¬ "]: ".data <:+: N)
    (h : "]: ".data ++ N = x ++ ("]: ".data ++ Z)) : False := by
  cases x with
  | nil => exact hx rfl
  | cons c x =>
    cases x with
    | nil => simp at h
    | cons c1 x =>
      cases x with
      | nil => simp at h
      | cons c2 x =>
        simp only [List.cons_append, List.cons.injEq, List.nil_append] at h
        exact hN ⟨x, Z, by rw [h.2.2.2]; simp⟩



/-- A match of `w2` + `(.*)` + `]` decomposes the text accordingly. -/
theorem exec_label_sound (w2 : List Char) (s : List Char) (r : List (List Char) × List Char)
    (h : exec (w2.map Inst.rune ++ Inst.star true :: ("]".data.map Inst.rune ++ [])) s
      = some r) :
    ∃ label, s = w2 ++ (label ++ ']' :: r.2) := by
  obtain ⟨t, rfl, h1⟩ := exec_runes_some w2 _ s r h
  rw [exec_star_capture] at h1
  obtain ⟨label, b, rfl, _, h2⟩ := starGreedy_sound _ _ _ _ h1
  obtain ⟨r', h3, rfl⟩ := Option.map_eq_some'.1 h2
  obtain ⟨t3, rfl, h4⟩ := exec_runes_some "]".data _ b r' h3
  simp only [exec, Option.some.injEq] at h4
  subst h4
  exact ⟨label, by simp⟩

/-- A match of `w1` + `(.*)` + `w2` + `(.*)` + `]` decomposes the text accordingly. -/
theorem exec_name_label_sound (w1 w2 : List Char) (s : List Char)
    (r : List (List Char) × List Char)
    (h : exec (w1.map Inst.rune ++ Inst.star true ::
        (w2.map Inst.rune ++ Inst.star true :: ("]".data.map Inst.rune ++ []))) s = some r) :
    ∃ name label, s = w1 ++ (name ++ (w2 ++ (label ++ ']' :: r.2))) := by
  obtain ⟨t, rfl, h1⟩ := exec_runes_some w1 _ s r h
  rw [exec_star_capture] at h1
  obtain ⟨name, b, rfl, _, h2⟩ := starGreedy_sound _ _ _ _ h1
  obtain ⟨r', h3, rfl⟩ := Option.map_eq_some'.1 h2
  obtain ⟨label, hl⟩ := exec_label_sound w2 b r' h3
  exact ⟨name, label, by rw [hl]⟩

/-- The advancement pattern captures exactly the name and the label. -/
theorem exec_advancement_exact (P N L T : List Char)
    (hP : ∀ c ∈ P, c ≠ '\n') (hN : ∀ c ∈ N, c ≠ '\n') (hL : ∀ c ∈ L, c ≠ '\n')
    (hsep : ¬ "]: ".data <:+: N) (hLb : ']' ∉ L) (hLw : ¬ advWord <:+: L) (hT : ']' ∉ T) :
    exec (Inst.rune '[' :: Inst.star false ::
        ("]: ".data.map Inst.rune ++ Inst.star true ::
          (advWord.map Inst.rune ++ Inst.star true :: ("]".data.map Inst.rune ++ []))))
      ('[' :: (P ++ ("]: ".data ++ (N ++ (advWord ++ (L ++ ']' :: T)))))) = some ([N, L], T) := by
  -- the label
  have h3 : starGreedy
      (fun cap rest =>
        (exec ("]".data.map Inst.rune ++ []) rest).map (fun r => (cap :: r.1, r.2)))
      [] (L ++ ']' :: T) = some ([L], T) := by
    apply starGreedy_longest _ L [] _ _ hL
    · have : exec ("]".data.map Inst.rune ++ []) (']' :: T) = some ([], T) := by
        simp [exec]
      rw [this]
      rfl
    · intro a' b' hab _ hlen
      rw [Option.map_eq_none']
      by_contra hne
      obtain ⟨r, hr⟩ := Option.ne_none_iff_exists'.1 hne
      obtain ⟨t3, rfl, _⟩ := exec_runes_some "]".data _ b' r hr
      have := first_bracket_unique L T a' t3 hLb hT (by simpa using hab)
      rw [this] at hlen
      exact Nat.lt_irrefl _ hlen
  -- the name
  have h2 : starGreedy
      (fun cap rest =>
        (exec (advWord.map Inst.rune ++ Inst.star true :: ("]".data.map Inst.rune ++ []))
          rest).map (fun r => (cap :: r.1, r.2)))
      [] (N ++ (advWord ++ (L ++ ']' :: T))) = some ([N, L], T) := by
    apply starGreedy_longest _ N [] _ _ hN
    · rw [exec_runes_append, exec_star_capture, h3]
      rfl
    · intro a' b' hab _ hlen
      rw [Option.map_eq_none']
      by_contra hne
      obtain ⟨r, hr⟩ := Option.ne_none_iff_exists'.1 hne
      obtain ⟨L', hb⟩ := exec_label_sound advWord b' r hr
      rw [hb] at hab
      rcases List.append_eq_append_iff.1 hab with ⟨z, hz1, hz2⟩ | ⟨z, hz1, _⟩
      · have hz : z ≠ [] := by
          intro h0
          rw [h0, List.append_nil] at hz1
          rw [hz1] at hlen
          exact Nat.lt_irrefl _ hlen
        exact no_later_advWord L T z L' r.2 hz hLb hT hLw hz2
      · have := congrArg List.length hz1
        simp at this
        omega
  -- the bracketed beginning
  rw [exec_rune_cons, exec_star_plain]
  apply starGreedy_longest _ P [] _ _ hP
  · rw [exec_runes_append, exec_star_capture, h2]
  · intro a' b' hab _ hlen
    by_contra hne
    obtain ⟨r, hr⟩ := Option.ne_none_iff_exists'.1 hne
    obtain ⟨N', L', hb⟩ := exec_name_label_sound "]: ".data advWord b' r hr
    rw [hb] at hab
    rcases List.append_eq_append_iff.1 hab with ⟨x, hx1, hx2⟩ | ⟨x, hx1, _⟩
    · have hx : x ≠ [] := by
        intro h0
        rw [h0, List.append_nil] at hx1
        rw [hx1] at hlen
        exact Nat.lt_irrefl _ hlen
      -- `hx2 : "]: " ++ (N ++ (advWord ++ U)) = x ++ ("]: " ++ (N' ++ (advWord ++ V)))`
      have hx3 : ("]: ".data ++ N) ++ (advWord ++ (L ++ ']' :: T)) =
          (x ++ ("]: ".data ++ N')) ++ (advWord ++ (L' ++ ']' :: r.2)) := by
        simpa using hx2
      rcases List.append_eq_append_iff.1 hx3 with ⟨m, hm1, hm2⟩ | ⟨m, hm1, _⟩
      · by_cases hm : m = []
        · rw [hm, List.append_nil] at hm1
          exact sep_not_later N x N' hx hsep (by simpa using hm1.symm)
        · exact no_later_advWord L T m L' r.2 hm hLb hT hLw hm2
      · exact sep_not_later N x (N' ++ m) hx hsep (by simpa using hm1)
    · have := congrArg List.length hx1
      simp at this
      omega



/-- Claim C2, amended: for every line that matches the join pattern and none of the three
server patterns tested before it, the dispatcher posts the embed titled with the captured
name followed by " joined the game", empty description, yellow, and stores the clock value
under that name; the captured name is the text of the line between a bracketed beginning
ending in "]: " and " joined the game". -/
theorem C2_join_line_notification (url : String) (pj : PlayerJoin) (now : Nat) (line : String)
    (hjoin : (MustCompile regexJoin (by decide)).MatchString line = true)
    (hstarting : (MustCompile regexServerStarting (by decide)).MatchString line = false)
    (hstarted : (MustCompile regexServerStarted (by decide)).MatchString line = false)
    (hstop : (MustCompile regexServerStop (by decide)).MatchString line = false) :
    (processMessage url pj now line).2 =
        [⟨url, ⟨parseJoinMessage line ++ " joined the game", "", ColorYellow⟩⟩] ∧
      (processMessage url pj now line).1 (parseJoinMessage line) = some now ∧
      ∃ pre post : String,
        line = "[" ++ pre ++ "]: " ++ parseJoinMessage line ++ " joined the game" ++ post ∧
          '\n' ∉ pre.data ∧ '\n' ∉ (parseJoinMessage line).data := by
  refine ⟨?_, ?_, ?_⟩
  · simp [processMessage, hjoin, hstarting, hstarted, hstop]
  · simp [processMessage, hjoin, hstarting, hstarted, hstop]
  · obtain ⟨pre, name, post, hl, hn, hp, hnm⟩ := join_match_sound line hjoin
    rw [hn]
    exact ⟨pre, post, hl, hp, hnm⟩

/-- Witness for claim C2: the join line of Steve. -/
theorem C2_witness :
    (processMessage "u" (fun _ => none) 7
        "[12:00:00] [Server thread/INFO]: Steve joined the game").2 =
        [⟨"u", ⟨"Steve joined the game", "", "16311836"⟩⟩] ∧
      (processMessage "u" (fun _ => none) 7
        "[12:00:00] [Server thread/INFO]: Steve joined the game").1 "Steve" = some 7 := by
  have h := C2_join_line_notification "u" (fun _ => none) 7
    "[12:00:00] [Server thread/INFO]: Steve joined the game"
    (by decide) (by decide) (by decide) (by decide)
  have hn : parseJoinMessage "[12:00:00] [Server thread/INFO]: Steve joined the game"
      = "Steve" := by decide
  rw [hn] at h
  exact ⟨h.1, h.2.1⟩

/-- Counterexample to claim C2 as stated: a line matching the join pattern (capturing
"Stopping server") that also matches the stopping pattern is answered with
"Server stopping...", not with a join notification, and no join time is stored. -/
theorem C2_counterexample :
    (MustCompile regexJoin (by decide)).MatchString
        "[12:00:00] [Server thread/INFO]: Stopping server joined the game" = true ∧
      parseJoinMessage "[12:00:00] [Server thread/INFO]: Stopping server joined the game"
        = "Stopping server" ∧
      (processMessage "u" (fun _ => none) 7
        "[12:00:00] [Server thread/INFO]: Stopping server joined the game").2 =
        [⟨"u", ⟨"Server stopping...", "", ColorBlue⟩⟩] ∧
      (processMessage "u" (fun _ => none) 7
        "[12:00:00] [Server thread/INFO]: Stopping server joined the game").2 ≠
        [⟨"u", ⟨"Stopping server joined the game", "", ColorYellow⟩⟩] ∧
      (processMessage "u" (fun _ => none) 7
        "[12:00:00] [Server thread/INFO]: Stopping server joined the game").1
        "Stopping server" = none := by
  decide

/-- Submatches of the advancement pattern, through its program. -/
theorem advancement_find (h : (Compile regexAdvancement).isSome = true) (line : String) :
    (MustCompile regexAdvancement h).FindStringSubmatch line =
      (submatchesAt (Inst.rune '[' :: Inst.star false ::
        ("]: ".data.map Inst.rune ++ Inst.star true ::
          (advWord.map Inst.rune ++ Inst.star true :: ("]".data.map Inst.rune ++ []))))
        line.data).getD [] := rfl

/-- Matching of the advancement pattern, through its program. -/
theorem advancement_match (h : (Compile regexAdvancement).isSome = true) (line : String) :
    (MustCompile regexAdvancement h).MatchString line =
      (submatchesAt (Inst.rune '[' :: Inst.star false ::
        ("]: ".data.map Inst.rune ++ Inst.star true ::
          (advWord.map Inst.rune ++ Inst.star true :: ("]".data.map Inst.rune ++ []))))
        line.data).isSome := rfl

/-- Claim C3, amended: for every line made of a bracketed beginning, "]: ", a name,
" has made the advancement [", a label, "]" and a rest without "]", where the three texts
hold no line feed, the name does not contain "]: ", the label contains neither "]" nor
" has made the advancement [", and no earlier rule matches, `parseAdavancementMessage`
returns exactly the name and the label, and the dispatcher posts the green embed made of
them. -/
theorem C3_advancement_line_notification (url : String) (pj : PlayerJoin) (now : Nat)
    (pre name label rest line : String)
    (hline : line = "[" ++ pre ++ "]: " ++ name ++ " has made the advancement [" ++ label
      ++ "]" ++ rest)
    (hpre : '\n' ∉ pre.data) (hname : '\n' ∉ name.data) (hlabel : '\n' ∉ label.data)
    (hsep : ¬ "]: ".data <:+: name.data) (hbracket : ']' ∉ label.data)
    (hword : ¬ " has made the advancement [".data <:+: label.data)
    (hrest : ']' ∉ rest.data)
    (hstarting : (MustCompile regexServerStarting (by decide)).MatchString line = false)
    (hstarted : (MustCompile regexServerStarted (by decide)).MatchString line = false)
    (hstop : (MustCompile regexServerStop (by decide)).MatchString line = false)
    (hjoin : (MustCompile regexJoin (by decide)).MatchString line = false)
    (hleft : (MustCompile regexLeft (by decide)).MatchString line = false) :
    parseAdavancementMessage line = (name, label) ∧
      (processMessage url pj now line).2 =
        [⟨url, ⟨name ++ " has made the advancement", label, ColorGreen⟩⟩] := by
  have hdata : line.data = '[' :: (pre.data ++ ("]: ".data ++ (name.data ++
      (advWord ++ (label.data ++ ']' :: rest.data))))) := by
    rw [hline]
    simp [String.data_append, advWord]
  have hexec := exec_advancement_exact pre.data name.data label.data rest.data
    (fun c hc hcn => hpre (hcn ▸ hc)) (fun c hc hcn => hname (hcn ▸ hc))
    (fun c hc hcn => hlabel (hcn ▸ hc)) hsep hbracket hword hrest
  rw [← hdata] at hexec
  have hparse : parseAdavancementMessage line = (name, label) := by
    unfold parseAdavancementMessage
    dsimp only
    rw [advancement_find, submatchesAt, hexec]
    simp
  have hmatch : (MustCompile regexAdvancement (by decide)).MatchString line = true := by
    rw [advancement_match, submatchesAt, hexec]
    rfl
  refine ⟨hparse, ?_⟩
  simp [processMessage, hstarting, hstarted, hstop, hjoin, hleft, hmatch, hparse]

/-- Witness for claim C3: the Stone Age line of Steve. -/
theorem C3_witness :
    parseAdavancementMessage
        "[12:00:00] [Server thread/INFO]: Steve has made the advancement [Stone Age]"
        = ("Steve", "Stone Age") ∧
      (processMessage "u" (fun _ => none) 7
        "[12:00:00] [Server thread/INFO]: Steve has made the advancement [Stone Age]").2 =
        [⟨"u", ⟨"Steve has made the advancement", "Stone Age", "12118406"⟩⟩] :=
  C3_advancement_line_notification "u" (fun _ => none) 7 "12:00:00] [Server thread/INFO"
    "Steve" "Stone Age" ""
    "[12:00:00] [Server thread/INFO]: Steve has made the advancement [Stone Age]"
    (by decide) (by decide) (by decide) (by decide) (by decide) (by decide) (by decide)
    (by decide) (by decide) (by decide) (by decide) (by decide) (by decide)

/-- Counterexample to claim C3 as stated: the name has no "]: " and the label no "]", but
the label contains " has made the advancement [", and the greedy name group swallows the
first occurrence: the parsed pair is not the name and the label. -/
theorem C3_counterexample :
    "[12:00:00] [Server thread/INFO]: Steve has made the advancement [a has made the advancement [b]"
        = "[" ++ "12:00:00] [Server thread/INFO" ++ "]: " ++ "Steve" ++
          " has made the advancement [" ++ "a has made the advancement [b" ++ "]" ∧
      ¬ "]: ".data <:+: "Steve".data ∧
      ']' ∉ "a has made the advancement [b".data ∧
      firstRule
        "[12:00:00] [Server thread/INFO]: Steve has made the advancement [a has made the advancement [b]"
        = some Rule.advancementEarned ∧
      parseAdavancementMessage
        "[12:00:00] [Server thread/INFO]: Steve has made the advancement [a has made the advancement [b]"
        = ("Steve has made the advancement [a", "b") ∧
      (processMessage "u" (fun _ => none) 7
        "[12:00:00] [Server thread/INFO]: Steve has made the advancement [a has made the advancement [b]").2
        = [⟨"u", ⟨"Steve has made the advancement [a has made the advancement", "b",
            ColorGreen⟩⟩] := by
  decide

/-! ## The dispatcher: theorems -/

/-- The posts of one dispatcher iteration are those of the first matching rule. -/
theorem processMessage_calls (url : String) (pj : PlayerJoin) (now : Nat) (line : String) :
    (processMessage url pj now line).2 =
      ((firstRule line).map (fun r => PostCall.mk url (r.notification line))).toList := by
  simp only [processMessage, firstRule, ruleOrder, List.find?, Rule.matchesLine]
  split_ifs <;> simp_all [Rule.notification]

/-- The map after one dispatcher iteration. -/
theorem processMessage_map (url : String) (pj : PlayerJoin) (now : Nat) (line : String) :
    (processMessage url pj now line).1 =
      if firstRule line = some Rule.playerJoined then
        (fun k => if k = parseJoinMessage line then some now else pj k)
      else pj := by
  simp only [processMessage, firstRule, ruleOrder, List.find?, Rule.matchesLine]
  split_ifs <;> simp_all

/-- A rule found by `firstRule` matches the line. -/
theorem firstRule_matches (line : String) (r : Rule) (h : firstRule line = some r) :
    r.matchesLine line = true := by
  have := List.find?_some h
  simpa using this

/-- No rule matches exactly when `firstRule` finds none. -/
theorem firstRule_eq_none (line : String) :
    firstRule line = none ↔ ∀ r : Rule, r.matchesLine line = false := by
  unfold firstRule
  rw [List.find?_eq_none]
  constructor
  · intro h r
    have := h r (by cases r <;> simp [ruleOrder])
    simpa using this
  · intro h r _
    simp [h r]

/-- Claim C1: for every line handed to the dispatcher, the `postWebhook` calls of the iteration
are exactly the notification of the first rule the line matches, in the order
server-starting, server-started, server-stopping, player-joined, player-left,
advancement-earned: one call when some rule matches, none when no rule matches. -/
theorem C1_first_matching_rule_posts_once (url : String) (pj : PlayerJoin) (now : Nat)
    (line : String) :
    (processMessage url pj now line).2 =
        ((ruleOrder.find? (fun r => r.matchesLine line)).map
          (fun r => PostCall.mk url (r.notification line))).toList ∧
      ((∃ r : Rule, r.matchesLine line = true) →
        ∃ r : Rule, firstRule line = some r ∧
          (processMessage url pj now line).2 = [⟨url, r.notification line⟩]) ∧
      ((∀ r : Rule, r.matchesLine line = false) → (processMessage url pj now line).2 = []) := by
  refine ⟨processMessage_calls url pj now line, ?_, ?_⟩
  · rintro ⟨r, hr⟩
    cases hf : firstRule line with
    | none =>
      have := (firstRule_eq_none line).1 hf r
      simp [hr] at this
    | some r0 =>
      exact ⟨r0, rfl, by rw [processMessage_calls, hf]; rfl⟩
  · intro h
    rw [processMessage_calls, (firstRule_eq_none line).2 h]
    rfl

/-- Witness for claim C1: a line matching both the stopping and the join pattern yields
"Server stopping...", and an unrecognised line yields no call. -/
theorem C1_witness :
    Rule.serverStopping.matchesLine
        "[12:00:00] [Server thread/INFO]: Stopping server joined the game\n" = true ∧
      Rule.playerJoined.matchesLine
        "[12:00:00] [Server thread/INFO]: Stopping server joined the game\n" = true ∧
      (processMessage "u" (fun _ => none) 0
        "[12:00:00] [Server thread/INFO]: Stopping server joined the game\n").2 =
        [⟨"u", ⟨"Server stopping...", "", "43519"⟩⟩] ∧
      (processMessage "u" (fun _ => none) 0 "[12:00:00] [Server thread/INFO]: hello\n").2 = [] := by
  refine ⟨by decide, by decide, ?_, ?_⟩
  · rw [(C1_first_matching_rule_posts_once "u" (fun _ => none) 0
      "[12:00:00] [Server thread/INFO]: Stopping server joined the game\n").1]
    decide
  · exact (C1_first_matching_rule_posts_once "u" (fun _ => none) 0
      "[12:00:00] [Server thread/INFO]: hello\n").2.2 (by intro r; cases r <;> decide)

/-- Claim C10: the posts of a dispatcher iteration depend on the line only, not on the
`playerJoin` map or the clock; the map is changed only by a line classified as a join, only
at the captured name, where the clock value is stored; and no entry is removed. -/
theorem C10_classification_stateless (url : String) (pj1 pj2 : PlayerJoin) (t1 t2 : Nat)
    (line : String) :
    (processMessage url pj1 t1 line).2 = (processMessage url pj2 t2 line).2 ∧
      (firstRule line ≠ some Rule.playerJoined → (processMessage url pj1 t1 line).1 = pj1) ∧
      (firstRule line = some Rule.playerJoined →
        (processMessage url pj1 t1 line).1 (parseJoinMessage line) = some t1) ∧
      (∀ k, k ≠ parseJoinMessage line → (processMessage url pj1 t1 line).1 k = pj1 k) ∧
      (∀ k, (pj1 k).isSome = true → ((processMessage url pj1 t1 line).1 k).isSome = true) := by
  refine ⟨by rw [processMessage_calls, processMessage_calls], ?_, ?_, ?_, ?_⟩
  · intro h
    rw [processMessage_map, if_neg h]
  · intro h
    rw [processMessage_map, if_pos h]
    simp
  · intro k hk
    rw [processMessage_map]
    split_ifs <;> simp [hk]
  · intro k hk
    rw [processMessage_map]
    split_ifs
    · by_cases hkn : k = parseJoinMessage line <;> simp [hkn, hk]
    · exact hk

/-- Witness for claim C10 on a join line and on a leave line. -/
theorem C10_witness :
    (processMessage "u" (fun _ => none) 7
        "[12:00:00] [Server thread/INFO]: Steve left the game\n").1 = (fun _ => none) ∧
      (processMessage "u" (fun _ => none) 7
        "[12:00:00] [Server thread/INFO]: Steve joined the game\n").1 "Steve" = some 7 := by
  refine ⟨?_, ?_⟩
  · exact (C10_classification_stateless "u" (fun _ => none) (fun _ => none) 7 7
      "[12:00:00] [Server thread/INFO]: Steve left the game\n").2.1 (by decide)
  · exact (C10_classification_stateless "u" (fun _ => none) (fun _ => none) 7 7
      "[12:00:00] [Server thread/INFO]: Steve joined the game\n").2.2.1 (by decide)

/-! ## Webhook delivery: theorems -/

/-- Posts of a concatenation. -/
theorem postsOf_append (xs ys : List Effect) : postsOf (xs ++ ys) = postsOf xs ++ postsOf ys := by
  induction xs with
  | nil => rfl
  | cons e es ih => cases e <;> simp [postsOf, ih]

/-- Sleeps of a concatenation. -/
theorem sleepsOf_append (xs ys : List Effect) :
    sleepsOf (xs ++ ys) = sleepsOf xs ++ sleepsOf ys := by
  induction xs with
  | nil => rfl
  | cons e es ih => cases e <;> simp [sleepsOf, ih]

/-- Closing bodies posts nothing. -/
theorem postsOf_closeBody (n : Nat) : postsOf (List.replicate n Effect.closeBody) = [] := by
  induction n with
  | zero => rfl
  | succ n ih => simp [List.replicate_succ, postsOf, ih]

/-- Closing bodies sleeps nothing. -/
theorem sleepsOf_closeBody (n : Nat) : sleepsOf (List.replicate n Effect.closeBody) = [] := by
  induction n with
  | zero => rfl
  | succ n ih => simp [List.replicate_succ, sleepsOf, ih]

/-- After `n` responses with status 429 and one with another status, `postWebhook` has
posted `n + 1` times, slept `n` times and returned. -/
theorem postWebhook_retries (url : String) (content : Embed) (net : Nat → PostResult)
    (implInt : Int) :
    ∀ (n fuel attempt deferred : Nat), n < fuel →
      (∀ i, i < n → ∃ r, (net (attempt + i)).resp = some r ∧ r.StatusCode = 429) →
      (∃ r, (net (attempt + n)).resp = some r ∧ r.StatusCode ≠ 429) →
      (postWebhook url content net implInt fuel attempt deferred).2 = Outcome.returned ∧
      postsOf (postWebhook url content net implInt fuel attempt deferred).1 =
        List.replicate (n + 1) (Effect.post url "application/json" ⟨"", [content]⟩) ∧
      sleepsOf (postWebhook url content net implInt fuel attempt deferred).1 =
        (List.range n).map (fun i => sleepAfter implInt (net (attempt + i))) := by
  intro n
  induction n with
  | zero =>
    intro fuel attempt deferred hf _ hlast
    obtain ⟨r, hr, hs⟩ := hlast
    cases fuel with
    | zero => omega
    | succ fuel =>
      rw [Nat.add_zero] at hr
      have hs' : ¬ r.StatusCode = StatusTooManyRequests := hs
      simp only [postWebhook, hr, if_neg hs']
      refine ⟨by first | rfl | trivial, ?_, ?_⟩
      · cases (net attempt).err <;> cases r.bodyErr <;>
          simp [postsOf, postsOf_append, postsOf_closeBody, List.replicate_succ]
      · cases (net attempt).err <;> cases r.bodyErr <;>
          simp [sleepsOf, sleepsOf_append, sleepsOf_closeBody, List.replicate_succ]
  | succ n ih =>
    intro fuel attempt deferred hf h429 hlast
    cases fuel with
    | zero => omega
    | succ fuel =>
      obtain ⟨r, hr, hs⟩ := h429 0 (by omega)
      rw [Nat.add_zero] at hr
      have hs' : r.StatusCode = StatusTooManyRequests := hs
      have ih' := ih fuel (attempt + 1) (deferred + 1) (by omega)
        (fun i hi => by
          have := h429 (i + 1) (by omega)
          rwa [show attempt + (i + 1) = attempt + 1 + i by omega] at this)
        (by rwa [show attempt + (n + 1) = attempt + 1 + n by omega] at hlast)
      obtain ⟨h1, h2, h3⟩ := ih'
      simp only [postWebhook, hr, if_pos hs']
      refine ⟨h1, ?_, ?_⟩
      · cases (net attempt).err <;>
          simp [postsOf, postsOf_append, h2, List.replicate_succ]
      · rw [List.range_succ_eq_map]
        cases (net attempt).err <;>
          simp [sleepsOf, sleepsOf_append, h3, sleepAfter, hr, Function.comp_def,
            Nat.add_assoc, Nat.add_comm 1]

/-- The exact sequence of effects of `postWebhook` when `n` responses with status 429 are
followed by one with another status: each retried attempt is a post followed by its sleep,
and the last attempt is a post followed by the printing of the body. -/
theorem postWebhook_trace (url : String) (content : Embed) (net : Nat → PostResult)
    (implInt : Int) (rs : Nat → Response) :
    ∀ (n fuel attempt deferred : Nat), n < fuel →
      (∀ i, i < n → (net (attempt + i)).resp = some (rs (attempt + i)) ∧
        (rs (attempt + i)).StatusCode = 429) →
      ((net (attempt + n)).resp = some (rs (attempt + n)) ∧
        (rs (attempt + n)).StatusCode ≠ 429) →
      (postWebhook url content net implInt fuel attempt deferred).1 =
        ((List.range n).map (fun i =>
          Effect.post url "application/json" ⟨"", [content]⟩ ::
            ((if (net (attempt + i)).err then [Effect.print "Error can't post to webhook"]
              else []) ++
            [Effect.sleep (wrapInt64 (waitTime implInt (rs (attempt + i)) * Second))]))).flatten
        ++ (Effect.post url "application/json" ⟨"", [content]⟩ ::
            ((if (net (attempt + n)).err then [Effect.print "Error can't post to webhook"]
              else []) ++
            (if (rs (attempt + n)).bodyErr then [Effect.print "Can't read response body\n"]
              else []) ++
            Effect.print ((rs (attempt + n)).body ++ "\n") ::
              List.replicate (deferred + n + 1) Effect.closeBody)) := by
  intro n
  induction n with
  | zero =>
    intro fuel attempt deferred hf _ hlast
    cases fuel with
    | zero => omega
    | succ fuel =>
      obtain ⟨hr, hs⟩ := hlast
      rw [Nat.add_zero] at hr hs
      have hs' : ¬ (rs attempt).StatusCode = StatusTooManyRequests := hs
      simp [postWebhook, hr, if_neg hs']
  | succ n ih =>
    intro fuel attempt deferred hf h429 hlast
    cases fuel with
    | zero => omega
    | succ fuel =>
      obtain ⟨hr, hs⟩ := h429 0 (by omega)
      rw [Nat.add_zero] at hr hs
      have hs' : (rs attempt).StatusCode = StatusTooManyRequests := hs
      have ih' := ih fuel (attempt + 1) (deferred + 1) (by omega)
        (fun i hi => by
          have := h429 (i + 1) (by omega)
          rwa [show attempt + (i + 1) = attempt + 1 + i by omega] at this)
        (by rwa [show attempt + (n + 1) = attempt + 1 + n by omega] at hlast)
      simp only [postWebhook, hr, if_pos hs']
      rw [ih', List.range_succ_eq_map]
      simp [Function.comp_def, Nat.add_assoc, Nat.add_comm 1, Nat.add_left_comm]

/-- A value within the 64-bit range is not changed by wrapping. -/
theorem wrapInt64_of_fits (x : Int) (h1 : -(2 ^ 63) ≤ x) (h2 : x < 2 ^ 63) :
    wrapInt64 x = x := by
  unfold wrapInt64
  norm_num at h1 h2 ⊢
  omega


/-- Claim C5 (the code does otherwise): when `http.Post` fails and returns no response,
`postWebhook` prints the failure and then panics at `defer resp.Body.Close()`, which
dereferences the nil response; it does not return to the dispatcher. -/
theorem C5_failed_post_panics (url : String) (content : Embed) (implInt : Int)
    (fuel : Nat) :
    postWebhook url content (fun _ => ⟨none, true⟩) implInt (fuel + 1) 0 0 =
      ([Effect.post url "application/json" ⟨"", [content]⟩,
          Effect.print "Error can't post to webhook"], Outcome.panicked) := by
  simp [postWebhook]

/-- Claim C6, amended: when the first `n` posts are answered with status 429 and the next
with another status, `postWebhook` does exactly this, in this order: for each of the `n`
responses with status 429 it posts the request and then sleeps, and only then posts again;
after the last post it prints the body and returns, with no further post or sleep.  All
`n + 1` posts carry the same request.  The sleep after a 429 response is one second when
the rate-limit header is empty or does not parse, and the parsed value truncated toward
zero, in seconds, when the header parses to a finite value whose truncation lies between
-9223372036 and 9223372036. -/
theorem C6_retry_until_not_429 (url : String) (content : Embed) (net : Nat → PostResult)
    (implInt : Int) (rs : Nat → Response) (n fuel : Nat) (hfuel : n < fuel)
    (h429 : ∀ i, i < n → (net i).resp = some (rs i) ∧ (rs i).StatusCode = 429)
    (hlast : (net n).resp = some (rs n) ∧ (rs n).StatusCode ≠ 429) :
    (postWebhook url content net implInt fuel 0 0).2 = Outcome.returned ∧
      (postWebhook url content net implInt fuel 0 0).1 =
        ((List.range n).map (fun i =>
          Effect.post url "application/json" ⟨"", [content]⟩ ::
            ((if (net i).err then [Effect.print "Error can't post to webhook"] else []) ++
            [Effect.sleep (wrapInt64 (waitTime implInt (rs i) * Second))]))).flatten
        ++ (Effect.post url "application/json" ⟨"", [content]⟩ ::
            ((if (net n).err then [Effect.print "Error can't post to webhook"] else []) ++
            (if (rs n).bodyErr then [Effect.print "Can't read response body\n"] else []) ++
            Effect.print ((rs n).body ++ "\n") ::
              List.replicate (n + 1) Effect.closeBody)) ∧
      postsOf (postWebhook url content net implInt fuel 0 0).1 =
        List.replicate (n + 1) (Effect.post url "application/json" ⟨"", [content]⟩) ∧
      (sleepsOf (postWebhook url content net implInt fuel 0 0).1).length = n ∧
      ∀ i, i < n →
        (((rs i).rateLimitReset = "" ∨ (rs i).parsed = none) →
          wrapInt64 (waitTime implInt (rs i) * Second) = 1 * Second ∧
          (sleepsOf (postWebhook url content net implInt fuel 0 0).1)[i]? =
            some (1 * Second)) ∧
        (∀ mant exp, (rs i).rateLimitReset ≠ "" →
          (rs i).parsed = some (FloatVal.finite mant exp) →
          -9223372036 ≤ truncFloat mant exp → truncFloat mant exp ≤ 9223372036 →
          wrapInt64 (waitTime implInt (rs i) * Second) = truncFloat mant exp * Second ∧
          (sleepsOf (postWebhook url content net implInt fuel 0 0).1)[i]? =
            some (truncFloat mant exp * Second)) := by
  obtain ⟨h1, h2, h3⟩ := postWebhook_retries url content net implInt n fuel 0 0 hfuel
    (fun i hi => ⟨rs i, by simpa using h429 i hi⟩) ⟨rs n, by simpa using hlast⟩
  have htrace := postWebhook_trace url content net implInt rs n fuel 0 0 hfuel
    (fun i hi => by simpa using h429 i hi) (by simpa using hlast)
  refine ⟨h1, by simpa using htrace, h2, by rw [h3]; simp, ?_⟩
  intro i hi
  have hr := (h429 i hi).1
  have hget : (sleepsOf (postWebhook url content net implInt fuel 0 0).1)[i]? =
      some (wrapInt64 (waitTime implInt (rs i) * Second)) := by
    rw [h3]
    simp [List.getElem?_map, List.getElem?_range hi, sleepAfter, hr]
  rw [hget]
  constructor
  · intro h
    have hw : waitTime implInt (rs i) = 1 := by
      unfold waitTime
      rcases h with h | h
      · simp [h]
      · simp [h]
    rw [hw]
    exact ⟨rfl, rfl⟩
  · intro mant exp hne hp hlo hhi
    have hw : waitTime implInt (rs i) = truncFloat mant exp := by
      unfold waitTime
      rw [if_pos hne, hp]
      simp only [floatToInt]
      rw [if_pos]
      constructor
      · norm_num
        omega
      · norm_num
        omega
    have hfit : wrapInt64 (truncFloat mant exp * Second) = truncFloat mant exp * Second := by
      rw [wrapInt64_of_fits]
      · unfold Second
        norm_num
        omega
      · unfold Second
        norm_num
        omega
    rw [hw, hfit]
    exact ⟨rfl, rfl⟩

/-- Witness for claim C6: a 429 with header "0.5" (slept 0 seconds), a 429 without header
(slept 1 second), then a 204: post, sleep, post, sleep, post, in this order. -/
theorem C6_witness :
    postWebhook "u" ⟨"t", "", "43519"⟩
        (fun i => ⟨some (if i = 0 then ⟨429, "0.5", some (FloatVal.finite 1 (-1)), "", false⟩
          else if i = 1 then ⟨429, "", none, "", false⟩
          else ⟨204, "", none, "", false⟩), false⟩) 0 5 0 0 =
      ([Effect.post "u" "application/json" ⟨"", [⟨"t", "", "43519"⟩]⟩,
        Effect.sleep 0,
        Effect.post "u" "application/json" ⟨"", [⟨"t", "", "43519"⟩]⟩,
        Effect.sleep 1000000000,
        Effect.post "u" "application/json" ⟨"", [⟨"t", "", "43519"⟩]⟩,
        Effect.print "\n",
        Effect.closeBody, Effect.closeBody, Effect.closeBody], Outcome.returned) ∧
      wrapInt64 (waitTime 0 ⟨429, "0.5", some (FloatVal.finite 1 (-1)), "", false⟩ * Second) =
        truncFloat 1 (-1) * Second ∧
      truncFloat 1 (-1) = 0 := by
  have h := C6_retry_until_not_429 "u" ⟨"t", "", "43519"⟩
    (fun i => ⟨some (if i = 0 then ⟨429, "0.5", some (FloatVal.finite 1 (-1)), "", false⟩
      else if i = 1 then ⟨429, "", none, "", false⟩
      else ⟨204, "", none, "", false⟩), false⟩) 0
    (fun i => if i = 0 then ⟨429, "0.5", some (FloatVal.finite 1 (-1)), "", false⟩
      else if i = 1 then ⟨429, "", none, "", false⟩
      else ⟨204, "", none, "", false⟩) 2 5 (by decide)
    (by
      intro i hi
      rcases Nat.lt_succ_iff_lt_or_eq.1 hi with h0 | h1
      · have : i = 0 := by omega
        subst this
        exact ⟨rfl, rfl⟩
      · subst h1
        exact ⟨rfl, rfl⟩)
    ⟨rfl, by decide⟩
  refine ⟨Prod.ext (h.2.1.trans (by decide)) h.1, ?_, by decide⟩
  exact ((h.2.2.2.2 0 (by decide)).2 1 (-1) (by decide) rfl (by decide) (by decide)).1

/-- Counterexample to claim C6 as stated: for the header value 10000000000 (the 32-bit
float `9765625 * 2 ^ 10`) the truncation is 10000000000 seconds, but the duration handed to
`time.Sleep` has wrapped around to a negative number of nanoseconds, so the code does not
wait at all. -/
theorem C6_counterexample :
    truncFloat 9765625 10 = 10000000000 ∧
      sleepsOf (postWebhook "u" ⟨"t", "", "43519"⟩
        (fun i =>
          if i = 0 then
            ⟨some ⟨429, "10000000000", some (FloatVal.finite 9765625 10), "", false⟩, false⟩
          else ⟨some ⟨204, "", none, "", false⟩, false⟩) 0 5 0 0).1 =
        [-8446744073709551616] ∧
      (-8446744073709551616 : Int) ≠ 10000000000 * Second := by
  decide

/-! ## The tailer: theorems -/

/-- Reading never moves the descriptor backwards. -/
theorem ReadString_offset_le (content : List Char) (rd : Reader) :
    rd.offset ≤ (ReadString content rd).2.2.offset := by
  unfold ReadString
  split
  · exact Nat.le_refl _
  · dsimp only
    split
    · exact Nat.le_add_right _ _
    · exact Nat.le_add_right _ _

/-- At end of file the buffer is empty. -/
theorem ReadString_eof (content : List Char) (rd : Reader) (line : List Char) (rd1 : Reader)
    (h : ReadString content rd = (line, some ReadErr.eof, rd1)) :
    rd1.buf = [] ∧ rd.offset ≤ rd1.offset := by
  have hle := ReadString_offset_le content rd
  rw [h] at hle
  refine ⟨?_, hle⟩
  unfold ReadString at h
  split at h
  · simp at h
  · dsimp only at h
    split at h
    · simp only [Prod.mk.injEq] at h
      rw [← h.2.2]
    · simp at h

/-- A reader at offset zero with an empty buffer reads the first line of the file. -/
theorem ReadString_fresh (content : List Char) :
    (∀ line rest, splitLine content = some (line, rest) →
      (ReadString content ⟨0, []⟩).1 = line ∧ (ReadString content ⟨0, []⟩).2.1 = none) ∧
    (splitLine content = none →
      (ReadString content ⟨0, []⟩).1 = content ∧
        (ReadString content ⟨0, []⟩).2.1 = some ReadErr.eof) := by
  constructor
  · intro line rest h
    simp [ReadString, splitLine, h]
  · intro h
    simp [ReadString, splitLine, h]

/-- When `isTruncated` returns a value, it is the comparison of offset and size. -/
theorem isTruncated_ok (offset : Nat) (env : IterEnv) (b : Bool)
    (h : isTruncated offset env = Except.ok b) :
    env.seekCurrentErr = false ∧ env.statErr = false ∧ b = decide (offset > env.sizeAtCheck) := by
  unfold isTruncated at h
  split_ifs at h with h1 h2
  simp only [Except.ok.injEq] at h
  exact ⟨by simpa using h1, by simpa using h2, h.symm⟩

/-- Claim C8: `isTruncated` reports true exactly when the offset is greater than the size
of the file; an iteration of the tailer loop never moves the offset backwards unless it
detected a truncation, in which case the offset is zero; at end of file, an offset not
greater than the size is left unchanged by the check, and an offset greater than the size
is reset to zero with an empty buffer, so that the next read returns the first line of the
file (or all of it when it has no line feed). -/
theorem C8_cursor_monotone_except_truncation (env : IterEnv) (rd : Reader) :
    (∀ offset, isTruncated offset env = Except.ok true → offset > env.sizeAtCheck) ∧
    (∀ offset, env.seekCurrentErr = false → env.statErr = false →
      isTruncated offset env = Except.ok (decide (offset > env.sizeAtCheck))) ∧
    (rd.offset ≤ (tailerIter env rd).reader.offset ∨
      ((tailerIter env rd).reader.offset = 0 ∧
        ∃ line rd1, ReadString env.content rd = (line, some ReadErr.eof, rd1) ∧
          isTruncated rd1.offset env = Except.ok true)) ∧
    (∀ line rd1, env.readErr = false →
      ReadString env.content rd = (line, some ReadErr.eof, rd1) →
      env.seekCurrentErr = false → env.statErr = false →
      (rd1.offset ≤ env.sizeAtCheck →
        (tailerIter env rd).reader = rd1 ∧ (tailerIter env rd).continues = true) ∧
      (rd1.offset > env.sizeAtCheck → env.seekStartErr = false →
        (tailerIter env rd).reader = ⟨0, []⟩ ∧ (tailerIter env rd).continues = true ∧
        ∀ content : List Char,
          (∀ l rest, splitLine content = some (l, rest) →
            (ReadString content (tailerIter env rd).reader).1 = l) ∧
          (splitLine content = none →
            (ReadString content (tailerIter env rd).reader).1 = content))) := by
  refine ⟨?_, ?_, ?_, ?_⟩
  · intro offset h
    have := (isTruncated_ok offset env true h).2.2
    simpa using this.symm
  · intro offset h1 h2
    simp [isTruncated, h1, h2]
  · by_cases hre : env.readErr = true
    · simp [tailerIter, hre]
    · have hle := ReadString_offset_le env.content rd
      rcases hrs : ReadString env.content rd with ⟨line, err, rd1⟩
      rw [hrs] at hle
      rcases err with _ | err
      · left
        simpa [tailerIter, hre, hrs] using hle
      · cases err with
        | other =>
          left
          simpa [tailerIter, hre, hrs] using hle
        | eof =>
          rcases htr : isTruncated rd1.offset env with _ | truncated
          · left
            simpa [tailerIter, hre, hrs, htr] using hle
          · cases truncated with
            | false =>
              left
              simpa [tailerIter, hre, hrs, htr] using hle
            | true =>
              by_cases hss : env.seekStartErr = true
              · left
                simpa [tailerIter, hre, hrs, htr, hss] using hle
              · right
                refine ⟨by simp [tailerIter, hre, hrs, htr, hss], line, rd1, rfl, htr⟩
  · intro line rd1 hre hrs hsc hst
    have hbuf := (ReadString_eof env.content rd line rd1 hrs).1
    constructor
    · intro hle
      have : ¬ rd1.offset > env.sizeAtCheck := by omega
      simp [tailerIter, hre, hrs, isTruncated, hsc, hst, this]
    · intro hgt hss
      have hrd : tailerIter env rd = ⟨⟨0, []⟩, [], [], true⟩ := by
        simp [tailerIter, hre, hrs, isTruncated, hsc, hst, hgt, hss, hbuf]
      rw [hrd]
      refine ⟨rfl, rfl, ?_⟩
      intro content
      exact ⟨fun l rest h => ((ReadString_fresh content).1 l rest h).1,
        fun h => ((ReadString_fresh content).2 h).1⟩


/-- Witness for claim C8: the reader stood at offset 10 when the file was replaced by a
4-byte one; the iteration resets it and the next read returns the new first line. -/
theorem C8_witness :
    (tailerIter (quietEnv "new\n".data) ⟨10, []⟩).reader = ⟨0, []⟩ ∧
      (tailerIter (quietEnv "new\n".data) ⟨10, []⟩).continues = true ∧
      (ReadString "new\n".data (tailerIter (quietEnv "new\n".data) ⟨10, []⟩).reader).1 =
        "new\n".data := by
  have h := ((C8_cursor_monotone_except_truncation (quietEnv "new\n".data) ⟨10, []⟩).2.2.2
    [] ⟨10, []⟩ rfl (by decide) rfl rfl).2 (by decide) rfl
  exact ⟨h.1, h.2.1, (h.2.2 "new\n".data).1 "new\n".data [] (by decide)⟩

/-- Claim C7 (the code does otherwise): a write that ends in the middle of a line is read
up to the end of the file and dropped, and the rest of the line is emitted alone.  The file
holds "old line" at start; "Steve joined" is appended, then " the game" with the line feed.
The appended bytes form the single record "Steve joined the game", the tailer emits
" the game". -/
theorem C7_write_ending_mid_line :
    records "Steve joined the game\n" = ["Steve joined the game\n"] ∧
      tailerLoop
        [quietEnv "old line\nSteve joined".data,
          quietEnv "old line\nSteve joined the game\n".data,
          quietEnv "old line\nSteve joined the game\n".data]
        (startReader "old line\n".length) = ([" the game\n"], [" the game\n\n"]) := by
  decide

/-! ## Interleaving: theorems -/

/-- Notifications of a concatenation. -/
theorem notificationsOf_append (url : String) (xs ys : List String) :
    notificationsOf url (xs ++ ys) = notificationsOf url xs ++ notificationsOf url ys := by
  simp [notificationsOf]

/-- Removing the element at an index leaves a permutation of the rest. -/
theorem perm_cons_eraseIdx (l : List String) :
    ∀ (i : Nat) (x : String), l[i]? = some x → l.Perm (x :: l.eraseIdx i) := by
  induction l with
  | nil => intro i x h; simp at h
  | cons a l ih =>
    intro i x h
    cases i with
    | zero =>
      simp only [List.getElem?_cons_zero, Option.some.injEq] at h
      subst h
      simp
    | succ i =>
      simp only [List.getElem?_cons_succ] at h
      have := ih i x h
      simp only [List.eraseIdx_cons_succ]
      exact (List.Perm.cons a this).trans (List.Perm.swap x a _)

/-- Queued lines of a concatenation. -/
theorem queuedLines_append (xs ys : List String) :
    queuedLines (xs ++ ys) = queuedLines xs ++ queuedLines ys := by
  simp [queuedLines]

/-- The goroutines `main` starts for a line. -/
theorem handleLine_queued (line : String) : (handleLine line).1 = queuedLines [line] := by
  unfold handleLine queuedLines
  cases h : isChatMessage line <;> simp [h]

/-- Every step preserves the invariant. -/
theorem step_inv (url : String) (s s1 : Sys) (a : Action) (lines : List String)
    (hinv : SysInv url s lines) (h : step url s a = some s1) :
    SysInv url s1 (lines ++ linesRead [a]) := by
  obtain ⟨hp, hperm, hcap⟩ := hinv
  cases a with
  | read line =>
    simp only [step, Option.some.injEq] at h
    subst h
    refine ⟨hp, ?_, hcap⟩
    simp only [linesRead, queuedLines_append, handleLine_queued]
    rw [← List.append_assoc]
    exact hperm.append_right _
  | send i =>
    simp only [step] at h
    cases hg : s.senders[i]? with
    | none => simp [hg] at h
    | some line =>
      rw [hg] at h
      simp only at h
      split_ifs at h with hlt
      simp only [Option.some.injEq] at h
      subst h
      refine ⟨hp, ?_, ?_⟩
      · simp only [linesRead, List.append_nil]
        refine List.Perm.trans ?_ hperm
        have hs := perm_cons_eraseIdx s.senders i line hg
        have h1 : (s.received ++ s.chan ++ s.senders).Perm
            (s.received ++ s.chan ++ line :: s.senders.eraseIdx i) :=
          List.Perm.append_left _ hs
        refine List.Perm.trans ?_ h1.symm
        simp
      · simp only [List.length_append, List.length_singleton]
        unfold chanCapacity at hlt ⊢
        omega
  | recv now =>
    simp only [step] at h
    cases hc : s.chan with
    | nil => simp [hc] at h
    | cons m rest =>
      rw [hc] at h
      simp only [Option.some.injEq] at h
      subst h
      refine ⟨?_, ?_, ?_⟩
      · simp only [notificationsOf_append, hp]
        congr 1
        simp [notificationsOf, processMessage_calls]
      · simp only [linesRead, List.append_nil]
        rw [hc] at hperm
        simpa using hperm
      · rw [hc] at hcap
        simp only [List.length_cons] at hcap
        show rest.length ≤ chanCapacity
        omega

/-- Lines read by a step followed by others. -/
theorem linesRead_cons (a : Action) (as : List Action) :
    linesRead (a :: as) = linesRead [a] ++ linesRead as := by
  cases a <;> simp [linesRead]

/-- Every run preserves the invariant. -/
theorem run_inv (url : String) :
    ∀ (acts : List Action) (s0 s : Sys) (lines : List String),
      SysInv url s0 lines → run url s0 acts = some s → SysInv url s (lines ++ linesRead acts) := by
  intro acts
  induction acts with
  | nil =>
    intro s0 s lines hinv h
    simp only [run, Option.some.injEq] at h
    subst h
    simpa [linesRead] using hinv
  | cons a as ih =>
    intro s0 s lines hinv h
    simp only [run] at h
    cases hs : step url s0 a with
    | none => simp [hs] at h
    | some s1 =>
      rw [hs] at h
      rw [linesRead_cons, ← List.append_assoc]
      exact ih s1 s (lines ++ linesRead [a]) (step_inv url s0 s1 a lines hinv hs) h

/-- A step keeps the log order when sends happen in start order. -/
theorem step_ordered (url : String) (s s1 : Sys) (a : Action) (lines : List String)
    (hord : s.received ++ s.chan ++ s.senders = queuedLines lines)
    (ha : sendsInStartOrder [a] = true) (h : step url s a = some s1) :
    s1.received ++ s1.chan ++ s1.senders = queuedLines (lines ++ linesRead [a]) := by
  cases a with
  | read line =>
    simp only [step, Option.some.injEq] at h
    subst h
    simp only [linesRead, queuedLines_append, handleLine_queued, ← hord, List.append_assoc]
  | send i =>
    simp only [sendsInStartOrder, Bool.and_true, decide_eq_true_eq] at ha
    subst ha
    simp only [step] at h
    cases hg : s.senders with
    | nil => simp [hg] at h
    | cons line rest =>
      rw [hg] at h hord
      simp only [List.getElem?_cons_zero] at h
      split_ifs at h with hlt
      simp only [Option.some.injEq] at h
      subst h
      simp only [linesRead, List.append_nil, ← hord]
      simp
  | recv now =>
    simp only [step] at h
    cases hc : s.chan with
    | nil => simp [hc] at h
    | cons m rest =>
      rw [hc] at h hord
      simp only [Option.some.injEq] at h
      subst h
      simp only [linesRead, List.append_nil, ← hord]
      simp

/-- Start order of a step followed by others. -/
theorem sendsInStartOrder_cons (a : Action) (as : List Action) :
    sendsInStartOrder (a :: as) = (sendsInStartOrder [a] && sendsInStartOrder as) := by
  cases a <;> simp [sendsInStartOrder]

/-- A run keeps the log order when sends happen in start order. -/
theorem run_ordered (url : String) :
    ∀ (acts : List Action) (s0 s : Sys) (lines : List String),
      s0.received ++ s0.chan ++ s0.senders = queuedLines lines →
      sendsInStartOrder acts = true → run url s0 acts = some s →
      s.received ++ s.chan ++ s.senders = queuedLines (lines ++ linesRead acts) := by
  intro acts
  induction acts with
  | nil =>
    intro s0 s lines hord _ h
    simp only [run, Option.some.injEq] at h
    subst h
    simpa [linesRead] using hord
  | cons a as ih =>
    intro s0 s lines hord ha h
    rw [sendsInStartOrder_cons, Bool.and_eq_true] at ha
    simp only [run] at h
    cases hs : step url s0 a with
    | none => simp [hs] at h
    | some s1 =>
      rw [hs] at h
      rw [linesRead_cons, ← List.append_assoc]
      exact ih s1 s (lines ++ linesRead [a]) (step_ordered url s0 s1 a lines hord ha.1 hs)
        ha.2 h

/-- Claim C9, amended: in every run of tailer, goroutines and dispatcher, the notifications
posted are those of the lines the dispatcher has received, in the order of reception; the
lines received, in the channel and held by pending goroutines are together a permutation of
the non-chat lines read; the channel never holds more than two lines; and when every send
is made by the goroutine started first, these lines are in the order of the log. -/
theorem C9_delivery_in_receive_order (url : String) (acts : List Action) (s : Sys)
    (h : run url initSys acts = some s) :
    s.posted = notificationsOf url s.received ∧
      (s.received ++ s.chan ++ s.senders).Perm (queuedLines (linesRead acts)) ∧
      s.chan.length ≤ chanCapacity ∧
      (sendsInStartOrder acts = true →
        s.received ++ s.chan ++ s.senders = queuedLines (linesRead acts)) := by
  have hinit : SysInv url initSys [] := by
    refine ⟨rfl, ?_, by simp [initSys]⟩
    simp [initSys, queuedLines]
  have := run_inv url acts initSys s [] hinit h
  rw [List.nil_append] at this
  refine ⟨this.1, this.2.1, this.2.2, ?_⟩
  intro hs
  have := run_ordered url acts initSys s [] (by simp [initSys, queuedLines]) hs h
  rwa [List.nil_append] at this

/-- Counterexample to claim C9 as stated: the tailer reads a join line and then a leave
line, the goroutine of the second line sends first, and the dispatcher receives and posts
the leave notification before the join notification. -/
theorem C9_counterexample :
    linesRead [Action.read "[12:00:00] [Server thread/INFO]: Steve joined the game\n",
        Action.read "[12:00:01] [Server thread/INFO]: Steve left the game\n",
        Action.send 1, Action.send 0, Action.recv 1, Action.recv 2] =
      ["[12:00:00] [Server thread/INFO]: Steve joined the game\n",
        "[12:00:01] [Server thread/INFO]: Steve left the game\n"] ∧
    (run "u" initSys
        [Action.read "[12:00:00] [Server thread/INFO]: Steve joined the game\n",
          Action.read "[12:00:01] [Server thread/INFO]: Steve left the game\n",
          Action.send 1, Action.send 0, Action.recv 1, Action.recv 2]).map
        (fun s => (s.received, s.posted)) =
      some (["[12:00:01] [Server thread/INFO]: Steve left the game\n",
          "[12:00:00] [Server thread/INFO]: Steve joined the game\n"],
        [⟨"u", ⟨"Steve left the game", "", ColorYellow⟩⟩,
          ⟨"u", ⟨"Steve joined the game", "", ColorYellow⟩⟩]) := by
  decide


/-- Witness for claim C9: a run in which two lines are read, sent and received. -/
theorem C9_witness :
    ∃ s, run "u" initSys
        [Action.read "[12:00:00] [Server thread/INFO]: Steve joined the game\n",
          Action.read "[12:00:01] [Server thread/INFO]: Steve left the game\n",
          Action.send 0, Action.send 0, Action.recv 1, Action.recv 2] = some s ∧
      s.posted = notificationsOf "u" s.received ∧
      s.received ++ s.chan ++ s.senders =
        ["[12:00:00] [Server thread/INFO]: Steve joined the game\n",
          "[12:00:01] [Server thread/INFO]: Steve left the game\n"] := by
  cases h : run "u" initSys
      [Action.read "[12:00:00] [Server thread/INFO]: Steve joined the game\n",
        Action.read "[12:00:01] [Server thread/INFO]: Steve left the game\n",
        Action.send 0, Action.send 0, Action.recv 1, Action.recv 2] with
  | none =>
    have : (run "u" initSys
      [Action.read "[12:00:00] [Server thread/INFO]: Steve joined the game\n",
        Action.read "[12:00:01] [Server thread/INFO]: Steve left the game\n",
        Action.send 0, Action.send 0, Action.recv 1, Action.recv 2]).isSome = true := by
      decide
    rw [h] at this
    exact absurd this (by decide)
  | some s =>
    have hc := C9_delivery_in_receive_order "u" _ s h
    refine ⟨s, rfl, hc.1, ?_⟩
    rw [hc.2.2.2 (by decide)]
    decide

end McDiscordLogger
